import Mathlib

/-!
Shallow embedding of `blackjack_env.py`: a Blackjack reinforcement-learning
environment in three variants (`BlackjackEnv` with actions stick/hit,
`BlackjackDoubleEnv` adding a double action, `BlackjackCountingEnv` replacing
the infinite deck by a finite counted shoe).

Randomness is embedded by threading an explicit stream of RNG outputs
(`List Nat`): each call to the random source consumes one element.  For the
infinite-deck variants the element is an index into the 13-card `deck`
population (`np_random.choice(deck)`); for the counted variant it is a
position in the remaining shoe (`np_random.choice(len(self.decks))`).
An exhausted stream or an out-of-range index yields `none`; the real RNG
always produces in-range indices, so theorems are stated on `some` results.
Python float rewards are embedded as `ℚ` (all occurring values are exact).
-/

namespace Blackjack

/-- Source `cmp(a, b) = float(a > b) - float(a < b)` from the source. -/
def cmp (a b : Nat) : ℚ :=
  (if a > b then (1 : ℚ) else 0) - (if a < b then (1 : ℚ) else 0)

/-- Source `deck = [1, 2, 3, 4, 5, 6, 7, 8, 9, 10, 10, 10, 10]`:
1 = Ace, 2-10 number cards, J/Q/K = 10. -/
def deck : List Nat := [1, 2, 3, 4, 5, 6, 7, 8, 9, 10, 10, 10, 10]

/-- The `counting_score` dict ("Половинки" system).  The dict has keys 1..10
only (other keys would raise `KeyError`); cards are always in 1..10, so the
default 0 branch is never exercised by the environment. -/
def counting_score : Nat → Int
  | 1 => -2
  | 2 => 1
  | 3 => 2
  | 4 => 2
  | 5 => 3
  | 6 => 2
  | 7 => 1
  | 8 => 0
  | 9 => -1
  | 10 => -2
  | _ => 0

/-- Source `usable_ace(hand)`: `1 in hand and sum(hand) + 10 <= 21`. -/
def usable_ace (hand : List Nat) : Bool :=
  hand.contains 1 && decide (hand.sum + 10 ≤ 21)

/-- Source `sum_hand(hand)`: `sum(hand) + 10` if the ace is usable else `sum(hand)`. -/
def sum_hand (hand : List Nat) : Nat :=
  if usable_ace hand then hand.sum + 10 else hand.sum

/-- Source `is_bust(hand)`: `sum_hand(hand) > 21`. -/
def is_bust (hand : List Nat) : Bool :=
  decide (sum_hand hand > 21)

/-- Source `score(hand)`: `0 if is_bust(hand) else sum_hand(hand)`. -/
def score (hand : List Nat) : Nat :=
  if is_bust hand then 0 else sum_hand hand

/-- Source `is_natural(hand)`: `sorted(hand) == [1, 10]`. -/
def is_natural (hand : List Nat) : Bool :=
  decide (List.insertionSort (fun a b => a ≤ b) hand = [1, 10])

/-- The two constructor flags shared by all variants. -/
structure Flags where
  natural : Bool := false
  sab : Bool := false

/-- Game state of the infinite-deck variants: the two mutable hands. -/
structure GState where
  player : List Nat
  dealer : List Nat
deriving DecidableEq

/-- Observation of the base/double variants:
`(sum_hand(player), dealer[0], usable_ace(player))`. -/
abbrev Obs := Nat × Nat × Bool

/-- Observation of the counted variant (running count appended). -/
abbrev ObsC := Nat × Nat × Bool × Int

/-- Return value of the Python `seed` method, kept as a Python-shaped value
(an int, or a list of such) so that its list structure is visible. -/
inductive PyRet where
  | int : Int → PyRet
  | list : List PyRet → PyRet

/-- Lookup in `all_states_mapping`, the dict built by
`{state : id for id, state in enumerate(all_states)}`: the index of the first
occurrence of `a` (all enumerated states are distinct), `none` when the key is
absent (a Python `KeyError`). -/
def lookupIdx {α : Type _} [DecidableEq α] : List α → α → Option Nat
  | [], _ => none
  | x :: xs, a => if x = a then some 0 else (lookupIdx xs a).map (· + 1)

end Blackjack

namespace BlackjackEnv

open Blackjack

/-- Source `draw_card`: `int(np_random.choice(deck))` — consume one RNG output,
interpreted as an index into the 13-entry `deck` population. -/
def draw_card : List Nat → Option (Nat × List Nat)
  | [] => none
  | i :: rest => (deck.get? i).map fun c => (c, rest)

/-- Source `self.all_states = list(product(range(4, 32), range(1, 11), (True, False)))`. -/
def all_states : List Obs :=
  (List.range' 4 28).flatMap fun pt =>
    (List.range' 1 10).flatMap fun du =>
      [true, false].map fun ua => (pt, du, ua)

/-- Source `get_obs_id`: lookup in `all_states_mapping`, the dict sending each state
to its index in `all_states` (all entries distinct, so this is the unique
index); a missing key raises `KeyError`, embedded as `none`. -/
def get_obs_id (o : Obs) : Option Nat :=
  lookupIdx all_states o

/-- Source `seed`: `self.np_random, seed = seeding.np_random(seed); return [seed]`.
For an integer argument the effective seed is that integer; the method wraps
it in a one-element list. -/
def seed (s : Int) : PyRet :=
  .list [.int s]

/-- Source `_get_obs`: `(sum_hand(player), dealer[0], usable_ace(player))`. -/
def get_obs (g : GState) : Obs :=
  (sum_hand g.player, g.dealer.headI, usable_ace g.player)

/-- The dealer auto-play loop of the stick branch:
`while sum_hand(dealer) < 17: dealer.append(draw_card())`. -/
def dealerPlay : List Nat → List Nat → Option (List Nat × List Nat)
  | [], d => if sum_hand d < 17 then none else some (d, [])
  | i :: rest, d =>
    if sum_hand d < 17 then
      (deck.get? i).bind fun c => dealerPlay rest (d ++ [c])
    else some (d, i :: rest)

/-- Source `BlackjackEnv.step` (lines 99-125).  `assert self.action_space.contains
(action)` for `Discrete(2)` is `a < 2`; `if action:` is `a ≠ 0`.  The empty
`info` dict is dropped from the embedded result. -/
def step (fl : Flags) (a : Nat) (g : GState) (cs : List Nat) :
    Option (Obs × ℚ × Bool × GState × List Nat) :=
  if a < 2 then
    if a ≠ 0 then
      (draw_card cs).map fun (c, cs') =>
        let g' : GState := ⟨g.player ++ [c], g.dealer⟩
        if is_bust g'.player then (get_obs g', -1, true, g', cs')
        else (get_obs g', 0, false, g', cs')
    else
      (dealerPlay cs g.dealer).map fun (d, cs') =>
        let g' : GState := ⟨g.player, d⟩
        let reward := Blackjack.cmp (score g'.player) (score g'.dealer)
        let reward :=
          if fl.sab ∧ is_natural g'.player ∧ ¬ is_natural g'.dealer then 1
          else if ¬ fl.sab ∧ fl.natural ∧ is_natural g'.player ∧ reward = 1 then 3 / 2
          else reward
        (get_obs g', reward, true, g', cs')
  else none

end BlackjackEnv

namespace BlackjackDoubleEnv

open Blackjack

/-- Source `all_states` of `BlackjackDoubleEnv.__init__` (line 155): the same
product as the base class. -/
def all_states : List Obs :=
  (List.range' 4 28).flatMap fun pt =>
    (List.range' 1 10).flatMap fun du =>
      [true, false].map fun ua => (pt, du, ua)

/-- The `elif action == 1` hit branch of `BlackjackDoubleEnv.step`
(lines 177-184); textually the same as the base class's hit branch. -/
def hit (g : GState) (cs : List Nat) :
    Option (Obs × ℚ × Bool × GState × List Nat) :=
  (BlackjackEnv.draw_card cs).map fun (c, cs') =>
    let g' : GState := ⟨g.player ++ [c], g.dealer⟩
    if is_bust g'.player then (BlackjackEnv.get_obs g', -1, true, g', cs')
    else (BlackjackEnv.get_obs g', 0, false, g', cs')

/-- The `else` stick branch of `BlackjackDoubleEnv.step` (lines 186-201);
textually the same as the base class's stick branch. -/
def stick (fl : Flags) (g : GState) (cs : List Nat) :
    Option (Obs × ℚ × Bool × GState × List Nat) :=
  (BlackjackEnv.dealerPlay cs g.dealer).map fun (d, cs') =>
    let g' : GState := ⟨g.player, d⟩
    let reward := Blackjack.cmp (score g'.player) (score g'.dealer)
    let reward :=
      if fl.sab ∧ is_natural g'.player ∧ ¬ is_natural g'.dealer then 1
      else if ¬ fl.sab ∧ fl.natural ∧ is_natural g'.player ∧ reward = 1 then 3 / 2
      else reward
    (BlackjackEnv.get_obs g', reward, true, g', cs')

/-- Source `BlackjackDoubleEnv.step` (lines 169-202).  The action space is
`Discrete(3)`.  The `action == 2` branch runs the env's own hit
(`self.step(action=1)`), then, when the hand did not bust, the env's own
stick (`self.step(action=0)`), doubles the resulting reward and returns a
freshly computed observation. -/
def step (fl : Flags) (a : Nat) (g : GState) (cs : List Nat) :
    Option (Obs × ℚ × Bool × GState × List Nat) :=
  if a < 3 then
    if a = 2 then
      match hit g cs with
      | none => none
      | some (_, r1, d1, g1, cs1) =>
        if d1 then some (BlackjackEnv.get_obs g1, r1 * 2, d1, g1, cs1)
        else
          match stick fl g1 cs1 with
          | none => none
          | some (_, r2, d2, g2, cs2) =>
            some (BlackjackEnv.get_obs g2, r2 * 2, d2, g2, cs2)
    else if a = 1 then hit g cs
    else stick fl g cs
  else none

end BlackjackDoubleEnv

namespace BlackjackCountingEnv

open Blackjack

/-- Source `self.counting_max = 11 * num_decks`. -/
def counting_max (num_decks : Nat) : Nat := 11 * num_decks

/-- Source `all_states` of `BlackjackCountingEnv.__init__` (lines 219-220): the base
product extended with a count axis, `product(base_states, range(-M, M))`,
the count varying fastest, ascending from `-M` to `M - 1`. -/
def all_states (num_decks : Nat) : List ObsC :=
  BlackjackEnv.all_states.flatMap fun S =>
    (List.range (2 * counting_max num_decks)).map fun (i : Nat) =>
      (S.1, S.2.1, S.2.2, (i : Int) - counting_max num_decks)

/-- Source `get_obs_id` inherited from the base class, over the counted state list. -/
def get_obs_id (num_decks : Nat) (o : ObsC) : Option Nat :=
  lookupIdx (all_states num_decks) o

/-- Full game state of the counted variant: hands plus shoe and running count. -/
structure CState where
  player : List Nat
  dealer : List Nat
  decks : List Nat
  count : Int
deriving DecidableEq

/-- One draw at shoe position `j`:
`card = int(self.decks.pop(np_random.choice(len(self.decks))))` followed by
`self.count += counting_score[card]` (lines 241-244). -/
def draw_one (s : CState) (j : Nat) : Option (Nat × CState) :=
  (s.decks.get? j).map fun card =>
    (card, { s with decks := s.decks.eraseIdx j,
                    count := s.count + counting_score card })

/-- Source `draw_card` of the counted variant: consume one RNG output as the shoe
position and draw there. -/
def draw_card (s : CState) : List Nat → Option (Nat × CState × List Nat)
  | [] => none
  | j :: rest => (draw_one s j).map fun (c, s') => (c, s', rest)

/-- Source `reshuffle_decks` (lines 246-250): `self.decks = deck * self.num_decks;
self.count = 0`. -/
def reshuffle_decks (num_decks : Nat) (s : CState) : CState :=
  { s with decks := (List.replicate num_decks deck).flatten, count := 0 }

/-- Source `_get_obs` of the counted variant (lines 252-254). -/
def get_obs (s : CState) : ObsC :=
  (sum_hand s.player, s.dealer.headI, usable_ace s.player, s.count)

/-- The dealer auto-play loop of the inherited stick branch, drawing from the
shoe. -/
def dealerPlay : List Nat → CState → Option (CState × List Nat)
  | [], s => if sum_hand s.dealer < 17 then none else some (s, [])
  | j :: rest, s =>
    if sum_hand s.dealer < 17 then
      (draw_one s j).bind fun (c, s') =>
        dealerPlay rest { s' with dealer := s'.dealer ++ [c] }
    else some (s, j :: rest)

/-- The hit branch of the inherited `BlackjackDoubleEnv.step`, with the
overridden `draw_card` and `_get_obs`. -/
def hit (s : CState) (cs : List Nat) :
    Option (ObsC × ℚ × Bool × CState × List Nat) :=
  (draw_card s cs).map fun (c, s', cs') =>
    let s2 : CState := { s' with player := s'.player ++ [c] }
    if is_bust s2.player then (get_obs s2, -1, true, s2, cs')
    else (get_obs s2, 0, false, s2, cs')

/-- The stick branch of the inherited `BlackjackDoubleEnv.step`, with the
overridden `draw_card` and `_get_obs`. -/
def stick (fl : Flags) (s : CState) (cs : List Nat) :
    Option (ObsC × ℚ × Bool × CState × List Nat) :=
  (dealerPlay cs s).map fun (s', cs') =>
    let reward := Blackjack.cmp (score s'.player) (score s'.dealer)
    let reward :=
      if fl.sab ∧ is_natural s'.player ∧ ¬ is_natural s'.dealer then 1
      else if ¬ fl.sab ∧ fl.natural ∧ is_natural s'.player ∧ reward = 1 then 3 / 2
      else reward
    (get_obs s', reward, true, s', cs')

/-- Source `step` of the counted variant: the inherited `BlackjackDoubleEnv.step`
text (lines 169-202) executed with the overridden `draw_card`/`_get_obs`. -/
def step (fl : Flags) (a : Nat) (s : CState) (cs : List Nat) :
    Option (ObsC × ℚ × Bool × CState × List Nat) :=
  if a < 3 then
    if a = 2 then
      match hit s cs with
      | none => none
      | some (_, r1, d1, s1, cs1) =>
        if d1 then some (get_obs s1, r1 * 2, d1, s1, cs1)
        else
          match stick fl s1 cs1 with
          | none => none
          | some (_, r2, d2, s2, cs2) => some (get_obs s2, r2 * 2, d2, s2, cs2)
    else if a = 1 then hit s cs
    else stick fl s cs
  else none

/-- Source `draw_hand`: `[draw_card(), draw_card()]`. -/
def draw_hand (s : CState) (cs : List Nat) :
    Option (List Nat × CState × List Nat) :=
  (draw_card s cs).bind fun (c1, s1, cs1) =>
    (draw_card s1 cs1).map fun (c2, s2, cs2) => ([c1, c2], s2, cs2)

/-- The dealing phase of `reset`: `self.dealer = draw_hand(); self.player =
draw_hand(); return self._get_obs()` (dealer drawn first). -/
def reset_draws (s : CState) (cs : List Nat) :
    Option (ObsC × CState × List Nat) :=
  (draw_hand s cs).bind fun (dh, s1, cs1) =>
    (draw_hand s1 cs1).map fun (ph, s2, cs2) =>
      let s3 : CState := { s2 with dealer := dh, player := ph }
      (get_obs s3, s3, cs2)

/-- Source `BlackjackCountingEnv.reset` (lines 256-261): reshuffle when the shoe is
below `reshuffle_limit`, then deal dealer and player hands. -/
def reset (num_decks reshuffle_limit : Nat) (s : CState) (cs : List Nat) :
    Option (ObsC × CState × List Nat) :=
  reset_draws
    (if s.decks.length < reshuffle_limit then reshuffle_decks num_decks s else s)
    cs

/-- Iterated draws (the cards drawn since some reference point), used to state
the shoe/count invariants. -/
def draw_seq : List Nat → CState → Option (List Nat × CState)
  | [], s => some ([], s)
  | j :: js, s =>
    (draw_one s j).bind fun (c, s') =>
      (draw_seq js s').map fun (cards, s'') => (c :: cards, s'')

end BlackjackCountingEnv

/-- The enumeration order claim C7 asserts, written from the spec's words for
comparison with the source's list: the claimed order is
ascending product order with the usable-ace axis ascending over {0,1}
(False = 0 before True = 1); the source iterates `(True, False)`. -/
def all_states_spec_asc : List Blackjack.Obs :=
  (List.range' 4 28).flatMap fun pt =>
    (List.range' 1 10).flatMap fun du =>
      [false, true].map fun ua => (pt, du, ua)

section Sanity

open Blackjack

example : sum_hand [1, 10] = 21 := by decide
example : is_natural [10, 1] = true := by decide
example : score [10, 9, 5] = 0 := by decide
example : Blackjack.cmp 21 17 = 1 := by norm_num [Blackjack.cmp]

end Sanity

/-! ### Helper lemmas -/

namespace Blackjack

theorem lookupIdx_roundtrip {α : Type _} [DecidableEq α] (l : List α) (a : α)
    (h : a ∈ l) : ∃ i, lookupIdx l a = some i ∧ l.get? i = some a := by
  induction l with
  | nil => cases h
  | cons x xs ih =>
    by_cases hx : x = a
    · exact ⟨0, by simp [lookupIdx, hx], by simp [hx]⟩
    · have hmem : a ∈ xs := by
        rcases List.mem_cons.mp h with h1 | h1
        · exact absurd h1.symm hx
        · exact h1
      rcases ih hmem with ⟨i, h1, h2⟩
      exact ⟨i + 1, by simp [lookupIdx, hx, h1], by simpa using h2⟩

theorem lookupIdx_eq_none {α : Type _} [DecidableEq α] (l : List α) (a : α)
    (h : a ∉ l) : lookupIdx l a = none := by
  induction l with
  | nil => rfl
  | cons x xs ih =>
    have hx : ¬ x = a := fun hxa => h (hxa ▸ List.mem_cons_self x xs)
    have : a ∉ xs := fun hm => h (List.mem_cons_of_mem _ hm)
    simp [lookupIdx, hx, ih this]

/-- Membership in the enumerated base state list is exactly membership in the
declared axis ranges. -/
theorem mem_all_states (pt du : Nat) (ua : Bool) :
    (pt, du, ua) ∈ BlackjackEnv.all_states ↔
      (4 ≤ pt ∧ pt < 32 ∧ 1 ≤ du ∧ du < 11) := by
  simp only [BlackjackEnv.all_states, List.mem_flatMap, List.mem_map,
    List.mem_range'_1]
  constructor
  · rintro ⟨p, ⟨hp1, hp2⟩, d, ⟨hd1, hd2⟩, u, _, heq⟩
    simp only [Prod.mk.injEq] at heq
    obtain ⟨e1, e2, e3⟩ := heq
    subst e1; subst e2
    exact ⟨hp1, by omega, hd1, by omega⟩
  · rintro ⟨h1, h2, h3, h4⟩
    exact ⟨pt, ⟨h1, by omega⟩, du, ⟨h3, by omega⟩, ua,
      by cases ua <;> simp, rfl⟩

/-- Membership in the enumerated counted state list is exactly membership in
the declared axis ranges, the count axis being half-open at the top. -/
theorem mem_all_states_c (n pt du : Nat) (ua : Bool) (cnt : Int) :
    (pt, du, ua, cnt) ∈ BlackjackCountingEnv.all_states n ↔
      (4 ≤ pt ∧ pt < 32 ∧ 1 ≤ du ∧ du < 11 ∧
        -(11 * n : Int) ≤ cnt ∧ cnt < 11 * n) := by
  have hM : BlackjackCountingEnv.counting_max n = 11 * n := rfl
  constructor
  · intro h
    rcases List.mem_flatMap.mp h with ⟨S, hS, hmem⟩
    rcases List.mem_map.mp hmem with ⟨i, hi, heq⟩
    have hi' : i < 2 * (11 * n) := by
      have := List.mem_range.mp hi; omega
    simp only [Prod.mk.injEq] at heq
    obtain ⟨e1, e2, e3, e4⟩ := heq
    have hranges := (mem_all_states S.1 S.2.1 S.2.2).mp hS
    rw [hM] at e4
    refine ⟨e1 ▸ hranges.1, e1 ▸ hranges.2.1, e2 ▸ hranges.2.2.1,
      e2 ▸ hranges.2.2.2, by omega, by omega⟩
  · rintro ⟨h1, h2, h3, h4, h5, h6⟩
    refine List.mem_flatMap.mpr ⟨(pt, du, ua),
      (mem_all_states pt du ua).mpr ⟨h1, h2, h3, h4⟩,
      List.mem_map.mpr ⟨(cnt + 11 * n).toNat, List.mem_range.mpr (by omega), ?_⟩⟩
    simp only [Prod.mk.injEq, hM]
    exact ⟨trivial, trivial, trivial, by omega⟩

/-- Indexing a `flatMap` whose blocks all have length `L`. -/
theorem flatMap_getElem_const {α β : Type _} (l : List α) (f : α → List β)
    (L : Nat) (hf : ∀ x ∈ l, (f x).length = L) (i j : Nat) (x : α)
    (hx : l[i]? = some x) (hj : j < L) :
    (l.flatMap f)[i * L + j]? = (f x)[j]? := by
  induction l generalizing i with
  | nil => simp at hx
  | cons y xs ih =>
    rw [List.flatMap_cons]
    cases i with
    | zero =>
      have hy : (f y).length = L := hf y (List.mem_cons_self y xs)
      simp only [List.getElem?_cons_zero, Option.some.injEq] at hx
      subst hx
      rw [List.getElem?_append, if_pos (by omega)]
      simp
    | succ i =>
      have hy : (f y).length = L := hf y (List.mem_cons_self y xs)
      have hge : (f y).length ≤ (i + 1) * L + j := by
        rw [hy]; calc L ≤ (i + 1) * L := Nat.le_mul_of_pos_left L (by omega)
          _ ≤ (i + 1) * L + j := Nat.le_add_right _ _
      rw [List.getElem?_append_right hge]
      have harith : (i + 1) * L + j - (f y).length = i * L + j := by
        rw [hy]; ring_nf; omega
      rw [harith]
      simp only [List.getElem?_cons_succ] at hx
      exact ih (fun z hz => hf z (List.mem_cons_of_mem _ hz)) i hx

/-- Erasing an index never increases an element's multiplicity. -/
theorem count_eraseIdx_le (l : List Nat) (i : Nat) (v : Nat) :
    (l.eraseIdx i).count v ≤ l.count v := by
  induction l generalizing i with
  | nil => simp [List.eraseIdx]
  | cons x xs ih =>
    cases i with
    | zero =>
      simp only [List.eraseIdx]
      by_cases hx : x = v <;> simp [List.count_cons, hx]
    | succ i =>
      simp only [List.eraseIdx]
      by_cases hx : x = v <;> simp [List.count_cons, hx] <;> exact ih i

end Blackjack

namespace Blackjack

/-- The raw compare result is always one of +1, 0, −1. -/
theorem cmp_values (a b : Nat) :
    Blackjack.cmp a b = 1 ∨ Blackjack.cmp a b = 0 ∨ Blackjack.cmp a b = -1 := by
  rcases Nat.lt_trichotomy a b with h | h | h
  · right; right
    simp [Blackjack.cmp, h, Nat.lt_asymm h]
  · right; left
    simp [Blackjack.cmp, h]
  · left
    simp [Blackjack.cmp, h, Nat.lt_asymm h]

end Blackjack


namespace Blackjack

open BlackjackCountingEnv

theorem draw_one_spec (s : CState) (j : Nat) (c : Nat) (s' : CState)
    (h : draw_one s j = some (c, s')) :
    s'.count = s.count + counting_score c ∧
    s'.decks.length + 1 = s.decks.length ∧
    (∀ v, s'.decks.count v ≤ s.decks.count v) := by
  unfold draw_one at h
  cases hq : s.decks.get? j with
  | none => rw [hq] at h; simp at h
  | some card =>
    rw [hq] at h
    simp only [Option.map_some', Option.some.injEq, Prod.mk.injEq] at h
    obtain ⟨e1, e2⟩ := h
    subst e1; subst e2
    refine ⟨rfl, ?_, fun v => count_eraseIdx_le _ _ _⟩
    rw [List.get?_eq_getElem?] at hq
    obtain ⟨hj, _⟩ := List.getElem?_eq_some_iff.mp hq
    simp only [List.length_eraseIdx, if_pos hj]
    omega

theorem draw_seq_spec (js : List Nat) (s : CState) (cards : List Nat)
    (s' : CState) (h : draw_seq js s = some (cards, s')) :
    s'.count = s.count + (cards.map counting_score).sum ∧
    s'.decks.length + cards.length = s.decks.length := by
  induction js generalizing s cards with
  | nil =>
    simp only [draw_seq, Option.some.injEq, Prod.mk.injEq] at h
    obtain ⟨e1, e2⟩ := h
    subst e1; subst e2
    simp
  | cons j js ih =>
    simp only [draw_seq] at h
    cases hdo : draw_one s j with
    | none => rw [hdo] at h; simp at h
    | some p =>
      obtain ⟨c, s1⟩ := p
      rw [hdo] at h
      simp only [Option.some_bind] at h
      cases hds : draw_seq js s1 with
      | none => rw [hds] at h; simp at h
      | some q =>
        obtain ⟨cards1, s2⟩ := q
        rw [hds] at h
        simp only [Option.map_some', Option.some.injEq, Prod.mk.injEq] at h
        obtain ⟨e1, e2⟩ := h
        subst e1; subst e2
        obtain ⟨ihc, ihl⟩ := ih s1 cards1 hds
        obtain ⟨hc, hl, _⟩ := draw_one_spec s j c s1 hdo
        constructor
        · rw [List.map_cons, List.sum_cons, ihc, hc]
          ring
        · simp only [List.length_cons]
          omega

theorem reshuffle_decks_length (n : Nat) (s : CState) :
    (reshuffle_decks n s).decks.length = n * 13 := by
  simp [reshuffle_decks, List.length_flatten, List.map_replicate,
    List.sum_replicate, Blackjack.deck]

theorem reshuffle_count_deck (v : Nat) (h1 : 1 ≤ v) (h2 : v ≤ 9) :
    Blackjack.deck.count v = 1 := by
  interval_cases v <;> rfl

theorem reshuffle_decks_count (n : Nat) (s : CState) (v : Nat)
    (h1 : 1 ≤ v) (h2 : v ≤ 9) :
    (reshuffle_decks n s).decks.count v = n := by
  simp [reshuffle_decks, List.count_flatten, List.map_replicate,
    List.sum_replicate, reshuffle_count_deck v h1 h2]

theorem reshuffle_decks_count_ten (n : Nat) (s : CState) :
    (reshuffle_decks n s).decks.count 10 = 4 * n := by
  have h : Blackjack.deck.count 10 = 4 := rfl
  simp [reshuffle_decks, List.count_flatten, List.map_replicate,
    List.sum_replicate, h]
  ring

end Blackjack


namespace Blackjack

open BlackjackCountingEnv

theorem dealerPlayC_decks_le (cs : List Nat) (s : CState) (s' : CState)
    (cs' : List Nat) (h : BlackjackCountingEnv.dealerPlay cs s = some (s', cs')) :
    ∀ v, s'.decks.count v ≤ s.decks.count v := by
  induction cs generalizing s with
  | nil =>
    simp only [BlackjackCountingEnv.dealerPlay] at h
    by_cases hd : sum_hand s.dealer < 17
    · rw [if_pos hd] at h; simp at h
    · rw [if_neg hd] at h
      simp only [Option.some.injEq, Prod.mk.injEq] at h
      obtain ⟨e1, _⟩ := h
      subst e1
      exact fun v => Nat.le_refl _
  | cons j rest ih =>
    simp only [BlackjackCountingEnv.dealerPlay] at h
    by_cases hd : sum_hand s.dealer < 17
    · rw [if_pos hd] at h
      cases hdo : draw_one s j with
      | none => rw [hdo] at h; simp at h
      | some p =>
        obtain ⟨c, s1⟩ := p
        rw [hdo] at h
        simp only [Option.some_bind] at h
        have hmid := ih { s1 with dealer := s1.dealer ++ [c] } h
        have hdo' := (draw_one_spec s j c s1 hdo).2.2
        exact fun v => Nat.le_trans (hmid v) (hdo' v)
    · rw [if_neg hd] at h
      simp only [Option.some.injEq, Prod.mk.injEq] at h
      obtain ⟨e1, _⟩ := h
      subst e1
      exact fun v => Nat.le_refl _

theorem hitC_decks_le (s : CState) (cs : List Nat) (o : ObsC) (r : ℚ)
    (d : Bool) (s' : CState) (cs' : List Nat)
    (h : BlackjackCountingEnv.hit s cs = some (o, r, d, s', cs')) :
    ∀ v, s'.decks.count v ≤ s.decks.count v := by
  cases cs with
  | nil => simp [BlackjackCountingEnv.hit, BlackjackCountingEnv.draw_card] at h
  | cons k rest =>
    cases hdo : draw_one s k with
    | none =>
      simp [BlackjackCountingEnv.hit, BlackjackCountingEnv.draw_card, hdo] at h
    | some p =>
      obtain ⟨c, s1⟩ := p
      have hdo' := (draw_one_spec s k c s1 hdo).2.2
      by_cases hb : is_bust (s1.player ++ [c])
      · simp only [BlackjackCountingEnv.hit, BlackjackCountingEnv.draw_card,
          hdo, Option.map_some', hb, if_true, Option.some.injEq,
          Prod.mk.injEq] at h
        obtain ⟨_, _, _, e4, _⟩ := h
        subst e4
        exact fun v => hdo' v
      · simp only [BlackjackCountingEnv.hit, BlackjackCountingEnv.draw_card,
          hdo, Option.map_some', hb, Bool.false_eq_true, if_false,
          Option.some.injEq, Prod.mk.injEq] at h
        obtain ⟨_, _, _, e4, _⟩ := h
        subst e4
        exact fun v => hdo' v

end Blackjack


namespace Blackjack

open BlackjackCountingEnv

theorem stickC_decks_le (fl : Flags) (s : CState) (cs : List Nat) (o : ObsC)
    (r : ℚ) (d : Bool) (s' : CState) (cs' : List Nat)
    (h : BlackjackCountingEnv.stick fl s cs = some (o, r, d, s', cs')) :
    ∀ v, s'.decks.count v ≤ s.decks.count v := by
  unfold BlackjackCountingEnv.stick at h
  cases hdp : BlackjackCountingEnv.dealerPlay cs s with
  | none => rw [hdp] at h; simp at h
  | some p =>
    obtain ⟨s1, cs1⟩ := p
    rw [hdp] at h
    simp only [Option.map_some', Option.some.injEq, Prod.mk.injEq] at h
    obtain ⟨_, _, _, e4, _⟩ := h
    subst e4
    exact dealerPlayC_decks_le cs s s1 cs1 hdp

theorem stepC_decks_le (fl : Flags) (a : Nat) (s : CState) (cs : List Nat)
    (o : ObsC) (r : ℚ) (d : Bool) (s' : CState) (cs' : List Nat)
    (h : BlackjackCountingEnv.step fl a s cs = some (o, r, d, s', cs')) :
    ∀ v, s'.decks.count v ≤ s.decks.count v := by
  unfold BlackjackCountingEnv.step at h
  by_cases h3 : a < 3
  · rw [if_pos h3] at h
    by_cases h2 : a = 2
    · rw [if_pos h2] at h
      cases hh : BlackjackCountingEnv.hit s cs with
      | none => rw [hh] at h; simp at h
      | some res =>
        obtain ⟨o1, r1, d1, s1, cs1⟩ := res
        rw [hh] at h
        have hhit := hitC_decks_le s cs o1 r1 d1 s1 cs1 hh
        cases d1 with
        | true =>
          simp only [if_true, Option.some.injEq, Prod.mk.injEq] at h
          obtain ⟨_, _, _, e4, _⟩ := h
          subst e4
          exact hhit
        | false =>
          simp only [Bool.false_eq_true, if_false] at h
          cases hs : BlackjackCountingEnv.stick fl s1 cs1 with
          | none => rw [hs] at h; simp at h
          | some res2 =>
            obtain ⟨o2, r2, d2, s2, cs2⟩ := res2
            rw [hs] at h
            simp only [Option.some.injEq, Prod.mk.injEq] at h
            obtain ⟨_, _, _, e4, _⟩ := h
            subst e4
            have hstick := stickC_decks_le fl s1 cs1 o2 r2 d2 s2 cs2 hs
            exact fun v => Nat.le_trans (hstick v) (hhit v)
    · rw [if_neg h2] at h
      by_cases h1 : a = 1
      · rw [if_pos h1] at h
        exact hitC_decks_le s cs o r d s' cs' h
      · rw [if_neg h1] at h
        exact stickC_decks_le fl s cs o r d s' cs' h
  · rw [if_neg h3] at h
    simp at h

end Blackjack


namespace Blackjack

theorem base_block_length (pt : Nat) :
    ((List.range' 1 10).flatMap fun du =>
      [true, false].map fun ua => (pt, du, ua)).length = 20 := by
  simp [List.length_flatMap, Function.comp_def]

theorem base_getElem (pt du : Nat) (ua : Bool) (h1 : 4 ≤ pt) (h2 : pt ≤ 31)
    (h3 : 1 ≤ du) (h4 : du ≤ 10) :
    BlackjackEnv.all_states[((pt - 4) * 10 + (du - 1)) * 2 +
      (if ua then 0 else 1)]? = some (pt, du, ua) := by
  have hidx : ((pt - 4) * 10 + (du - 1)) * 2 + (if ua then 0 else 1) =
      (pt - 4) * 20 + ((du - 1) * 2 + (if ua then 0 else 1)) := by
    cases ua <;> simp <;> ring
  rw [hidx]
  have hx : (List.range' 4 28)[pt - 4]? = some pt := by
    rw [List.getElem?_range' 4 1 (by omega : pt - 4 < 28)]
    congr 1
    omega
  rw [BlackjackEnv.all_states,
    flatMap_getElem_const _ _ 20 (fun x _ => base_block_length x)
      (pt - 4) _ pt hx (by cases ua <;> simp <;> omega)]
  have hy : (List.range' 1 10)[du - 1]? = some du := by
    rw [List.getElem?_range' 1 1 (by omega : du - 1 < 10)]
    congr 1
    omega
  rw [flatMap_getElem_const _ _ 2 (fun x _ => by simp) (du - 1) _ du hy
    (by cases ua <;> simp)]
  cases ua <;> rfl

end Blackjack


namespace Blackjack

theorem counted_getElem (n pt du : Nat) (ua : Bool) (cnt : Int)
    (h1 : 4 ≤ pt) (h2 : pt ≤ 31) (h3 : 1 ≤ du) (h4 : du ≤ 10)
    (h5 : -(11 * n : Int) ≤ cnt) (h6 : cnt < 11 * n) :
    (BlackjackCountingEnv.all_states n)[(((pt - 4) * 10 + (du - 1)) * 2 +
        (if ua then 0 else 1)) * (2 * (11 * n)) + (cnt + 11 * n).toNat]? =
      some (pt, du, ua, cnt) := by
  have hM : BlackjackCountingEnv.counting_max n = 11 * n := rfl
  have hx := base_getElem pt du ua h1 h2 h3 h4
  rw [BlackjackCountingEnv.all_states,
    flatMap_getElem_const _ _ (2 * (11 * n))
      (fun S _ => by simp [hM]) _ _ (pt, du, ua) hx (by omega)]
  rw [List.getElem?_map, hM,
    List.getElem?_range (by omega : (cnt + 11 * n).toNat < 2 * (11 * n))]
  simp only [Option.map_some', hM, Option.some.injEq, Prod.mk.injEq]
  exact ⟨trivial, trivial, trivial, by omega⟩
end Blackjack

/-! ### Claim theorems -/

open Blackjack

/-- C1: in the double-action environment, `step(double)` is exactly the
composition of the env's two existing actions: perform a hit; if the hand
busts on that hit the episode ends with reward `2 × (−1) = −2` and
`done = true`; otherwise perform a stick and end with reward twice the
stick's fully resolved reward (the doubling applies to the reward the
composed stick returns, i.e. after any natural/S&B override, never to the
raw compare result). -/
theorem C1_double_action_is_composition (fl : Flags) (g : GState)
    (cs : List Nat) :
    BlackjackDoubleEnv.step fl 2 g cs =
      (match BlackjackDoubleEnv.step fl 1 g cs with
        | none => none
        | some (_, _, true, g1, cs1) =>
          some (BlackjackEnv.get_obs g1, -2, true, g1, cs1)
        | some (_, _, false, g1, cs1) =>
          (BlackjackDoubleEnv.step fl 0 g1 cs1).map
            fun (_, r2, d2, g2, cs2) =>
              (BlackjackEnv.get_obs g2, 2 * r2, d2, g2, cs2)) := by
  show (match BlackjackDoubleEnv.hit g cs with
    | none => none
    | some (_, r1, d1, g1, cs1) =>
      if d1 then some (BlackjackEnv.get_obs g1, r1 * 2, d1, g1, cs1)
      else
        match BlackjackDoubleEnv.stick fl g1 cs1 with
        | none => none
        | some (_, r2, d2, g2, cs2) =>
          some (BlackjackEnv.get_obs g2, r2 * 2, d2, g2, cs2)) = _
  rw [show BlackjackDoubleEnv.step fl 1 g cs = BlackjackDoubleEnv.hit g cs
    from rfl]
  simp only [show ∀ g1 cs1, BlackjackDoubleEnv.step fl 0 g1 cs1 =
    BlackjackDoubleEnv.stick fl g1 cs1 from fun g1 cs1 => rfl]
  cases hh : BlackjackDoubleEnv.hit g cs with
  | none => rfl
  | some res =>
    obtain ⟨o1, r1, d1, g1, cs1⟩ := res
    cases d1 with
    | true =>
      have hr1 : r1 = -1 := by
        cases hdc : BlackjackEnv.draw_card cs with
        | none => simp [BlackjackDoubleEnv.hit, hdc] at hh
        | some p =>
          obtain ⟨c, cs2⟩ := p
          by_cases hb : is_bust (g.player ++ [c])
          · simp [BlackjackDoubleEnv.hit, hdc, hb] at hh
            exact hh.2.1.symm
          · simp [BlackjackDoubleEnv.hit, hdc, hb] at hh
      subst hr1
      simp only [if_pos rfl]
      norm_num
    | false =>
      cases hs : BlackjackDoubleEnv.stick fl g1 cs1 with
      | none => simp [hs]
      | some res2 =>
        obtain ⟨o2, r2, d2, g2, cs2⟩ := res2
        simp [hs, mul_comm]

/-- C3: on a stick action the reward-policy overrides are applied in this
exact mutually-exclusive precedence: if `sab` is set and the player's hand is
a natural and the dealer's (after auto-play) is not, the reward is exactly 1;
otherwise if `sab` is false, `natural` is set, the player's hand is a natural
and the raw compare reward is 1, the reward becomes 3/2; otherwise the reward
is the raw compare result, which always lies in {−1, 0, +1}. -/
theorem C3_stick_reward_policy (fl : Flags) (g : GState) (cs : List Nat)
    (o : Obs) (r : ℚ) (d : Bool) (g' : GState) (cs' : List Nat)
    (h : BlackjackEnv.step fl 0 g cs = some (o, r, d, g', cs')) :
    g'.player = g.player ∧ d = true ∧
    (Blackjack.cmp (score g.player) (score g'.dealer) = 1 ∨
     Blackjack.cmp (score g.player) (score g'.dealer) = 0 ∨
     Blackjack.cmp (score g.player) (score g'.dealer) = -1) ∧
    r = (if fl.sab ∧ is_natural g.player ∧ ¬ is_natural g'.dealer then 1
         else if ¬ fl.sab ∧ fl.natural ∧ is_natural g.player ∧
             Blackjack.cmp (score g.player) (score g'.dealer) = 1 then 3 / 2
         else Blackjack.cmp (score g.player) (score g'.dealer)) := by
  rw [show BlackjackEnv.step fl 0 g cs =
    (BlackjackEnv.dealerPlay cs g.dealer).map (fun (dd, cc) =>
      let g2 : GState := ⟨g.player, dd⟩
      let reward := Blackjack.cmp (score g2.player) (score g2.dealer)
      let reward :=
        if fl.sab ∧ is_natural g2.player ∧ ¬ is_natural g2.dealer then 1
        else if ¬ fl.sab ∧ fl.natural ∧ is_natural g2.player ∧ reward = 1
          then 3 / 2
        else reward
      (BlackjackEnv.get_obs g2, reward, true, g2, cc)) from rfl] at h
  cases hdp : BlackjackEnv.dealerPlay cs g.dealer with
  | none => rw [hdp] at h; simp at h
  | some p =>
    obtain ⟨dd, cc⟩ := p
    rw [hdp] at h
    simp only [Option.map_some', Option.some.injEq, Prod.mk.injEq] at h
    obtain ⟨e1, e2, e3, e4, e5⟩ := h
    subst e4
    exact ⟨rfl, e3.symm, cmp_values _ _, e2.symm⟩

/-- C3 witness: a concrete stick with `natural=True`, `sab=False`, player
natural `[1,10]` and dealer `[10,7]` (total 17, no dealer draw): the theorem
applies and resolves the reward to 3/2. -/
theorem C3_stick_reward_policy_witness :
    (⟨[1, 10], [10, 7]⟩ : GState).player = (⟨[1, 10], [10, 7]⟩ : GState).player ∧
    true = true ∧
    (Blackjack.cmp (score [1, 10]) (score [10, 7]) = 1 ∨
     Blackjack.cmp (score [1, 10]) (score [10, 7]) = 0 ∨
     Blackjack.cmp (score [1, 10]) (score [10, 7]) = -1) ∧
    (3 / 2 : ℚ) =
      (if (⟨true, false⟩ : Flags).sab ∧ is_natural [1, 10] ∧
          ¬ is_natural [10, 7] then 1
       else if ¬ (⟨true, false⟩ : Flags).sab ∧ (⟨true, false⟩ : Flags).natural ∧
           is_natural [1, 10] ∧
           Blackjack.cmp (score [1, 10]) (score [10, 7]) = 1 then 3 / 2
       else Blackjack.cmp (score [1, 10]) (score [10, 7])) := by
  have h := C3_stick_reward_policy ⟨true, false⟩ ⟨[1, 10], [10, 7]⟩ []
    (21, 10, true) (3 / 2) true ⟨[1, 10], [10, 7]⟩ []
    (by simp [BlackjackEnv.step, BlackjackEnv.dealerPlay, BlackjackEnv.get_obs,
      Blackjack.cmp, score, is_bust, sum_hand, usable_ace, is_natural,
      List.insertionSort, List.orderedInsert])
  exact h

/-- C8 counterexample: `seed(42)` does not return a bare integer — it returns
the Python list `[42]`. -/
theorem C8_counterexample :
    (∃ k : Int, BlackjackEnv.seed 42 = Blackjack.PyRet.int k) = False := by
  apply eq_false
  rintro ⟨k, h⟩
  simp [BlackjackEnv.seed] at h

/-- C8 amended: `seed` returns a one-element list whose sole element is the
effective seed used. -/
theorem C8_seed_returns_singleton_list (s : Int) :
    BlackjackEnv.seed s = Blackjack.PyRet.list [Blackjack.PyRet.int s] := rfl

/-- C9: for every hand of the game (a nonempty list of cards of value ≥ 1),
`score(hand) == 0` iff `is_bust(hand)`; when not bust, `score` returns the
hand total, which is positive. -/
theorem C9_score_zero_iff_bust (hand : List Nat) (hne : hand ≠ [])
    (hcards : ∀ c ∈ hand, 1 ≤ c) :
    (score hand = 0 ↔ is_bust hand = true) ∧
    (is_bust hand = false → score hand = sum_hand hand ∧ 0 < sum_hand hand) := by
  have hsum : 0 < hand.sum := by
    cases hand with
    | nil => exact absurd rfl hne
    | cons c t =>
      have hc := hcards c (List.mem_cons_self c t)
      simp only [List.sum_cons]
      omega
  have hpos : 0 < sum_hand hand := by
    unfold sum_hand
    split <;> omega
  constructor
  · constructor
    · intro h0
      by_contra hb
      have hb' : is_bust hand = false := by simpa using hb
      have hsc : score hand = sum_hand hand := by simp [score, hb']
      omega
    · intro hb
      simp [score, hb]
  · intro hb
    exact ⟨by simp [score, hb], hpos⟩

/-- C9 witness: the bust hand `[10,9,5]` (total 24) has score 0, and the
non-bust hand `[10,9]` has positive score equal to its total. -/
theorem C9_score_zero_iff_bust_witness :
    ((score [10, 9, 5] = 0 ↔ is_bust [10, 9, 5] = true) ∧
      (is_bust [10, 9, 5] = false →
        score [10, 9, 5] = sum_hand [10, 9, 5] ∧ 0 < sum_hand [10, 9, 5])) ∧
    ((score [10, 9] = 0 ↔ is_bust [10, 9] = true) ∧
      (is_bust [10, 9] = false →
        score [10, 9] = sum_hand [10, 9] ∧ 0 < sum_hand [10, 9])) :=
  ⟨C9_score_zero_iff_bust [10, 9, 5] (by decide) (by decide),
   C9_score_zero_iff_bust [10, 9] (by decide) (by decide)⟩

/-- C10: for the shared actions stick (0) and hit (1), the double-action
environment's `step` is extensionally equal to the base environment's `step`:
same state and same random stream give the same observation, reward, done
flag and successor state. -/
theorem C10_double_step_extends_base_step (fl : Flags) (a : Nat) (g : GState)
    (cs : List Nat) (h : a = 0 ∨ a = 1) :
    BlackjackEnv.step fl a g cs = BlackjackDoubleEnv.step fl a g cs := by
  rcases h with rfl | rfl <;> rfl

/-- C10 witness: concrete agreement of the two `step`s on a stick and a hit. -/
theorem C10_double_step_extends_base_step_witness :
    BlackjackEnv.step ⟨false, false⟩ 0 ⟨[10, 9], [10, 7]⟩ [] =
      BlackjackDoubleEnv.step ⟨false, false⟩ 0 ⟨[10, 9], [10, 7]⟩ [] ∧
    BlackjackEnv.step ⟨false, false⟩ 1 ⟨[10, 9], [10, 7]⟩ [0] =
      BlackjackDoubleEnv.step ⟨false, false⟩ 1 ⟨[10, 9], [10, 7]⟩ [0] :=
  ⟨C10_double_step_extends_base_step ⟨false, false⟩ 0 ⟨[10, 9], [10, 7]⟩ []
      (Or.inl rfl),
   C10_double_step_extends_base_step ⟨false, false⟩ 1 ⟨[10, 9], [10, 7]⟩ [0]
      (Or.inr rfl)⟩

open BlackjackCountingEnv in
/-- C4: in the counted-shoe environment the running count is conserved: a
reshuffle resets it to 0, the counting weights are the fixed table (Ace=−2,
2=+1, 3=+2, 4=+2, 5=+3, 6=+2, 7=+1, 8=0, 9=−1, ten=−2), and after any
sequence of draws the count has increased by exactly the summed weights of
the drawn cards — so from a reshuffle on, the count always equals the sum of
the weights of the cards drawn since. -/
theorem C4_count_conservation :
    (∀ (num_decks : Nat) (s : CState),
      (reshuffle_decks num_decks s).count = 0) ∧
    (counting_score 1 = -2 ∧ counting_score 2 = 1 ∧ counting_score 3 = 2 ∧
     counting_score 4 = 2 ∧ counting_score 5 = 3 ∧ counting_score 6 = 2 ∧
     counting_score 7 = 1 ∧ counting_score 8 = 0 ∧ counting_score 9 = -1 ∧
     counting_score 10 = -2) ∧
    (∀ (js : List Nat) (s : CState) (cards : List Nat) (s' : CState),
      draw_seq js s = some (cards, s') →
      s'.count = s.count + (cards.map counting_score).sum) :=
  ⟨fun _ _ => rfl, by decide,
   fun js s cards s' h => (draw_seq_spec js s cards s' h).1⟩

open BlackjackCountingEnv in
/-- C4 witness: drawing the card at position 1 of the two-card shoe `[1, 10]`
(a ten, weight −2) moves the count from 5 to 3 = 5 + (−2). -/
theorem C4_count_conservation_witness :
    (⟨[], [], [1], 3⟩ : CState).count =
      (⟨[], [], [1, 10], 5⟩ : CState).count +
        (([10] : List Nat).map counting_score).sum :=
  C4_count_conservation.2.2 [1] ⟨[], [], [1, 10], 5⟩ [10] ⟨[], [], [1], 3⟩
    (by decide)

open BlackjackCountingEnv in
/-- C5: every draw removes exactly one card from the shoe — after any
successful draw sequence, remaining size plus number of draws equals the
starting size — and a reshuffle restores a shoe of `num_decks × 13` cards in
which each value 1..9 occurs `num_decks` times and the value 10 occurs
`4 × num_decks` times. -/
theorem C5_shoe_conservation :
    (∀ (js : List Nat) (s : CState) (cards : List Nat) (s' : CState),
      draw_seq js s = some (cards, s') →
      s'.decks.length + cards.length = s.decks.length) ∧
    (∀ (num_decks : Nat) (s : CState),
      (reshuffle_decks num_decks s).decks.length = num_decks * 13) ∧
    (∀ (num_decks : Nat) (s : CState) (v : Nat), 1 ≤ v → v ≤ 9 →
      (reshuffle_decks num_decks s).decks.count v = num_decks) ∧
    (∀ (num_decks : Nat) (s : CState),
      (reshuffle_decks num_decks s).decks.count 10 = 4 * num_decks) :=
  ⟨fun js s cards s' h => (draw_seq_spec js s cards s' h).2,
   reshuffle_decks_length,
   reshuffle_decks_count,
   reshuffle_decks_count_ten⟩

open BlackjackCountingEnv in
/-- C5 witness: a two-draw sequence from a four-card shoe leaves two cards
(2 + 2 = 4), and the value 7 occurs twice in a freshly reshuffled two-deck
shoe. -/
theorem C5_shoe_conservation_witness :
    ((⟨[], [], [5, 9], -4⟩ : CState).decks.length +
      ([1, 10] : List Nat).length =
        (⟨[], [], [1, 5, 9, 10], 0⟩ : CState).decks.length) ∧
    (reshuffle_decks 2 ⟨[], [], [], 0⟩).decks.count 7 = 2 :=
  ⟨C5_shoe_conservation.1 [0, 2] ⟨[], [], [1, 5, 9, 10], 0⟩ [1, 10]
      ⟨[], [], [5, 9], -4⟩ (by decide),
   C5_shoe_conservation.2.2.1 2 ⟨[], [], [], 0⟩ 7 (by decide) (by decide)⟩

open BlackjackCountingEnv in
/-- C6: reshuffling happens exactly when `reset` is called with the shoe
strictly below `reshuffle_limit`: in that case the four initial cards are
drawn from a fresh shoe of `num_decks × 13` cards with count 0, otherwise
from the untouched shoe; `step` never reshuffles — it can only remove cards
from the shoe (the remaining shoe after any successful `step` is a
sub-multiset of the one before). -/
theorem C6_reshuffle_only_on_reset :
    (∀ (n limit : Nat) (s : CState) (cs : List Nat),
      s.decks.length < limit →
        reset n limit s cs = reset_draws (reshuffle_decks n s) cs ∧
        (reshuffle_decks n s).decks.length = n * 13 ∧
        (reshuffle_decks n s).count = 0) ∧
    (∀ (n limit : Nat) (s : CState) (cs : List Nat),
      ¬ s.decks.length < limit → reset n limit s cs = reset_draws s cs) ∧
    (∀ (fl : Flags) (a : Nat) (s : CState) (cs : List Nat) (o : ObsC) (r : ℚ)
        (d : Bool) (s' : CState) (cs' : List Nat),
      BlackjackCountingEnv.step fl a s cs = some (o, r, d, s', cs') →
      ∀ v, s'.decks.count v ≤ s.decks.count v) := by
  refine ⟨fun n limit s cs h => ⟨?_, reshuffle_decks_length n s, rfl⟩,
    fun n limit s cs h => ?_, stepC_decks_le⟩
  · unfold reset
    rw [if_pos h]
  · unfold reset
    rw [if_neg h]

open BlackjackCountingEnv in
/-- C6 witness: an empty shoe (size 0 < limit 15) makes `reset` deal from a
fresh one-deck shoe with count 0; a three-card shoe with limit 2 is dealt
from untouched; a concrete hit removes one card from the shoe. -/
theorem C6_reshuffle_only_on_reset_witness :
    (reset 1 15 ⟨[], [], [], 7⟩ [0, 0, 0, 0] =
        reset_draws (reshuffle_decks 1 ⟨[], [], [], 7⟩) [0, 0, 0, 0] ∧
      (reshuffle_decks 1 (⟨[], [], [], 7⟩ : CState)).decks.length = 1 * 13 ∧
      (reshuffle_decks 1 (⟨[], [], [], 7⟩ : CState)).count = 0) ∧
    (reset 1 2 ⟨[], [], [4, 5, 6], 1⟩ [0, 0, 0, 0] =
        reset_draws ⟨[], [], [4, 5, 6], 1⟩ [0, 0, 0, 0]) ∧
    (∀ v, List.count v (⟨[5, 4, 2], [10, 7], [3], 1⟩ : CState).decks ≤
      List.count v (⟨[5, 4], [10, 7], [2, 3], 0⟩ : CState).decks) :=
  ⟨C6_reshuffle_only_on_reset.1 1 15 ⟨[], [], [], 7⟩ [0, 0, 0, 0] (by decide),
   C6_reshuffle_only_on_reset.2.1 1 2 ⟨[], [], [4, 5, 6], 1⟩ [0, 0, 0, 0]
     (by decide),
   C6_reshuffle_only_on_reset.2.2 ⟨false, false⟩ 1 ⟨[5, 4], [10, 7], [2, 3], 0⟩
     [0] ((11, 10, false, 1)) 0 false ⟨[5, 4, 2], [10, 7], [3], 1⟩ []
     (by rfl)⟩

/-- C2 counterexample trace, num_decks = 1, reshuffle_limit = 15 (the source
defaults): `reset` reshuffles (13 < 15) and deals dealer `[7,6]`, player
`[5,4]` (shoe positions 6,5,4,3); two hits draw a 3 and a 2 (positions 2,1).
The resulting observation has running count 1+2+3+2+2+1 = 11 = 11·num_decks,
which lies outside the enumerated count range `range(-11, 11)`, so
`get_obs_id` fails (KeyError) on an observation produced by `step`. -/
theorem C2_counterexample :
    ((BlackjackCountingEnv.reset 1 15
        ⟨[], [], (List.replicate 1 Blackjack.deck).flatten, 0⟩
        [6, 5, 4, 3]).bind fun (_, s1, _) =>
      (BlackjackCountingEnv.step ⟨false, false⟩ 1 s1 [2]).bind
        fun (_, _, _, s2, _) =>
          (BlackjackCountingEnv.step ⟨false, false⟩ 1 s2 [1]).map
            fun (o3, _, _, _, _) => o3) = some (14, 7, false, 11) ∧
    BlackjackCountingEnv.get_obs_id 1 (14, 7, false, 11) = none := by
  constructor
  · decide
  · exact lookupIdx_eq_none _ _ (fun hmem => by
      have h := (mem_all_states_c 1 14 7 false 11).mp hmem
      omega)

/-- C2 amended: `get_obs_id` round-trips with `get_all_states` on the whole
declared observation domain, with the counted variant's running-count axis
read as the half-open range `[−11·num_decks, 11·num_decks)` that the code
enumerates (`range(-M, M)`); the closed upper endpoint `+11·num_decks` of the
claim is reachable by `reset`/`step` but absent from the enumeration, where
lookup fails. -/
theorem C2_get_obs_id_roundtrip :
    (∀ (pt du : Nat) (ua : Bool), 4 ≤ pt → pt ≤ 31 → 1 ≤ du → du ≤ 10 →
      ∃ i, BlackjackEnv.get_obs_id (pt, du, ua) = some i ∧
        BlackjackEnv.all_states.get? i = some (pt, du, ua)) ∧
    (∀ (n pt du : Nat) (ua : Bool) (cnt : Int), 4 ≤ pt → pt ≤ 31 →
      1 ≤ du → du ≤ 10 → -(11 * n : Int) ≤ cnt → cnt < 11 * n →
      ∃ i, BlackjackCountingEnv.get_obs_id n (pt, du, ua, cnt) = some i ∧
        (BlackjackCountingEnv.all_states n).get? i = some (pt, du, ua, cnt)) := by
  constructor
  · intro pt du ua h1 h2 h3 h4
    exact lookupIdx_roundtrip _ _
      ((mem_all_states pt du ua).mpr ⟨h1, by omega, h3, by omega⟩)
  · intro n pt du ua cnt h1 h2 h3 h4 h5 h6
    exact lookupIdx_roundtrip _ _
      ((mem_all_states_c n pt du ua cnt).mpr
        ⟨h1, by omega, h3, by omega, h5, h6⟩)

/-- C2 witness: the round-trip at the concrete base observation `(12,5,true)`
and the concrete counted observation `(12,5,true,-3)` with one deck. -/
theorem C2_get_obs_id_roundtrip_witness :
    (∃ i, BlackjackEnv.get_obs_id (12, 5, true) = some i ∧
      BlackjackEnv.all_states.get? i = some (12, 5, true)) ∧
    (∃ i, BlackjackCountingEnv.get_obs_id 1 (12, 5, true, -3) = some i ∧
      (BlackjackCountingEnv.all_states 1).get? i = some (12, 5, true, -3)) :=
  ⟨C2_get_obs_id_roundtrip.1 12 5 true (by decide) (by decide) (by decide)
      (by decide),
   C2_get_obs_id_roundtrip.2 1 12 5 true (-3) (by decide) (by decide)
      (by decide) (by decide) (by decide) (by decide)⟩


/-- C7 counterexample: the very first enumerated state already violates the
claimed ascending flag order — the code lists `(4,1,True)` before
`(4,1,False)`, while an ascending {0,1} axis would list `(4,1,False)`
first. -/
theorem C7_counterexample :
    BlackjackEnv.all_states.get? 0 = some (4, 1, true) ∧
    BlackjackEnv.all_states.get? 1 = some (4, 1, false) ∧
    all_states_spec_asc.get? 0 = some (4, 1, false) ∧
    (BlackjackEnv.all_states = all_states_spec_asc) = False := by
  refine ⟨rfl, rfl, rfl, eq_false fun h => ?_⟩
  have h1 : BlackjackEnv.all_states.get? 0 = some (4, 1, true) := rfl
  rw [h, show all_states_spec_asc.get? 0 = some (4, 1, false) from rfl] at h1
  exact absurd h1 (by decide)

/-- C7 amended: `get_all_states` lists the enumerated domain in ascending
product order over player_total ∈ [4,31] (outermost), then dealer_upcard ∈
[1,10], but the usable-ace axis is iterated True before False (descending,
the `(True, False)` of the source), not ascending; in the counted variant the
running count is the innermost axis, ascending over the half-open range
[−11·num_decks, 11·num_decks). Each in-range observation sits at exactly the
index these orders dictate (the double variant enumerates the same list). -/
theorem C7_enumeration_order :
    BlackjackDoubleEnv.all_states = BlackjackEnv.all_states ∧
    (∀ (pt du : Nat) (ua : Bool), 4 ≤ pt → pt ≤ 31 → 1 ≤ du → du ≤ 10 →
      BlackjackEnv.all_states[((pt - 4) * 10 + (du - 1)) * 2 +
        (if ua then 0 else 1)]? = some (pt, du, ua)) ∧
    (∀ (n pt du : Nat) (ua : Bool) (cnt : Int), 4 ≤ pt → pt ≤ 31 →
      1 ≤ du → du ≤ 10 → -(11 * n : Int) ≤ cnt → cnt < 11 * n →
      (BlackjackCountingEnv.all_states n)[(((pt - 4) * 10 + (du - 1)) * 2 +
          (if ua then 0 else 1)) * (2 * (11 * n)) + (cnt + 11 * n).toNat]? =
        some (pt, du, ua, cnt)) :=
  ⟨rfl, base_getElem, counted_getElem⟩

/-- C7 witness: the index formulas at the base observation `(12,5,true)` and
the counted observation `(12,5,true,−3)` with one deck. -/
theorem C7_enumeration_order_witness :
    BlackjackEnv.all_states[((12 - 4) * 10 + (5 - 1)) * 2 +
      (if true then 0 else 1)]? = some (12, 5, true) ∧
    (BlackjackCountingEnv.all_states 1)[(((12 - 4) * 10 + (5 - 1)) * 2 +
        (if true then 0 else 1)) * (2 * (11 * 1)) +
      ((-3 : Int) + 11 * 1).toNat]? = some (12, 5, true, -3) :=
  ⟨C7_enumeration_order.2.1 12 5 true (by decide) (by decide) (by decide)
      (by decide),
   C7_enumeration_order.2.2 1 12 5 true (-3) (by decide) (by decide)
      (by decide) (by decide) (by decide) (by decide)⟩
